import Mathlib

/-!
Shallow embedding of `src/stock_report.py` (reference-price stock report).

Modelling choices:
* Prices are rationals (`ℚ`), idealising Python floats to exact arithmetic.
* The fetched price history of a ticker is a `List ℚ` of closing prices in
  chronological order (`data['Close']`); a fetch that raises is `none`,
  an empty frame is `some []`.
* The persisted reference store (a JSON object) is an association list
  `List (String × ℚ)` in insertion order; Python dict lookup/insert is
  modelled by `alookup` / appending a fresh key.
* A Python `ZeroDivisionError` is modelled by `Except Unit`: inside
  `get_stock_data` it is swallowed by the `try/except` (the ticker yields
  `None`); inside `generate_stock_report` it propagates.
* The reference file on disk is a `FileState`: absent, present with a
  parseable mapping, or existing but unreadable/unparseable (in which case
  `json.load` / `open` raises, uncaught).
-/

set_option autoImplicit false

namespace StockReport

/-- Association-list lookup with string keys: first binding wins,
mirroring Python `dict` access (keys are unique in practice). -/
def alookup {α : Type} (k : String) : List (String × α) → Option α
  | [] => none
  | (k', v) :: rest => if k' = k then some v else alookup k rest

/-- The persisted reference mapping `"<TICKER>_reference" ↦ price`. -/
abbrev RefMap := List (String × ℚ)

/-- One report row: ordered field-name/value pairs of the Python row dict. -/
abbrev Row := List (String × String)

/-- `TIME_PERIODS` from the configuration block: lookback label ↦ trading days. -/
def TIME_PERIODS : List (String × ℕ) :=
  [("1d", 1), ("1w", 5), ("15d", 15), ("30d", 30), ("2m", 60)]

/-- `TOP_STOCKS` from the configuration block: category ↦ tickers. -/
def TOP_STOCKS : List (String × List String) :=
  [("Semiconductor", ["NVDA", "TSM", "ASML", "AMD", "INTC", "AVGO", "QCOM", "TXN", "MU", "ADI"]),
   ("AI", ["MSFT", "GOOG", "AMZN", "META", "ORCL", "IBM", "CRM", "NOW", "PATH", "AI"]),
   ("Defense", ["LMT", "RTX", "BA", "GD", "NOC", "HII", "LHX", "KBR", "LDOS", "BWXT"])]

/-- Round a rational to the nearest integer, ties to even — the rounding of
decimal formatting (`:.2f`) idealised to exact arithmetic. -/
def roundHalfEven (x : ℚ) : ℤ :=
  let f := ⌊x⌋
  let r := x - (f : ℚ)
  if r < 1/2 then f
  else if 1/2 < r then f + 1
  else if f % 2 = 0 then f else f + 1

/-- Digits of a nonnegative rational rounded to two decimal places,
e.g. `decimals2 5 = "5.00"`. -/
def decimals2 (x : ℚ) : String :=
  let c := (roundHalfEven (x * 100)).toNat
  toString (c / 100) ++ "." ++ (if c % 100 < 10 then "0" else "") ++ toString (c % 100)

/-- Python `f"{x:+.2f}"`: always-signed fixed-point with two decimals. -/
def fmtSigned (x : ℚ) : String :=
  (if x < 0 then "-" else "+") ++ decimals2 |x|

/-- Python `f"{x:.2f}"`: fixed-point with two decimals, sign only if negative. -/
def fmtPlain (x : ℚ) : String :=
  (if x < 0 then "-" else "") ++ decimals2 |x|

/-- The dictionary returned by a successful `get_stock_data` call. -/
structure StockData where
  symbol : String
  price : ℚ
  changes : List (String × Option ℚ)
deriving DecidableEq

/-- The `for period_name, days in TIME_PERIODS.items()` loop of
`get_stock_data` (lines 56–63): for each period, if strictly more data
points than `days` exist, the percentage change against the price `days`
trading days back (`data['Close'][-days-1]`), else `None`.  A zero past
price makes the division raise, modelled as `Except.error`. -/
def changesFor (data : List ℚ) (current : ℚ) :
    List (String × ℕ) → Except Unit (List (String × Option ℚ))
  | [] => .ok []
  | (pn, days) :: rest =>
    if days < data.length then
      let past := data.getD (data.length - days - 1) 0
      if past = 0 then .error ()
      else
        match changesFor data current rest with
        | .error e => .error e
        | .ok tl => .ok ((pn, some ((current - past) / past * 100)) :: tl)
    else
      match changesFor data current rest with
      | .error e => .error e
      | .ok tl => .ok ((pn, none) :: tl)

/-- `get_stock_data` (lines 41–72).  `hist` is the outcome of
`stock.history(period='80d')`: `none` when the fetch raised, otherwise the
list of closing prices.  The surrounding `try/except` turns any raised
error (fetch failure, zero past price) into `None`; an empty frame also
yields `None`.  The current price is the last data point. -/
def get_stock_data (ticker : String) (hist : Option (List ℚ)) : Option StockData :=
  match hist with
  | none => none
  | some data =>
    if data.isEmpty then none
    else
      let current := data.getLastD 0
      match changesFor data current TIME_PERIODS with
      | .error _ => none
      | .ok changes => some { symbol := ticker, price := current, changes := changes }

/-- The per-period changes of a successful `get_stock_data` call, in closed
form: for each lookback period, the percentage change when strictly more
data points than `days` exist, else `none` (proved equal to the loop's
result in `changesFor_ok`). -/
def periodChanges (data : List ℚ) (current : ℚ) : List (String × Option ℚ) :=
  TIME_PERIODS.map (fun p =>
    (p.1, if p.2 < data.length
          then some ((current - data.getD (data.length - p.2 - 1) 0) /
                     data.getD (data.length - p.2 - 1) 0 * 100)
          else none))

/-- State of the reference file on disk. -/
inductive FileState where
  /-- `os.path.exists(REFERENCE_FILE)` is false. -/
  | missing
  /-- The file exists but `open`/`json.load` raises on it. -/
  | unreadable
  /-- The file exists and parses to mapping `m`. -/
  | present (m : RefMap)
deriving DecidableEq

/-- `load_reference_prices` (lines 74–79): `{}` when the file is missing,
the parsed mapping when it parses; an existing but unreadable file raises,
uncaught (`Except.error`). -/
def load_reference_prices : FileState → Except Unit RefMap
  | .missing => .ok []
  | .unreadable => .error ()
  | .present m => .ok m

/-- `save_reference_prices` (lines 81–84): overwrite the file wholesale. -/
def save_reference_prices (prices : RefMap) : FileState :=
  .present prices

/-- Line 112: `ref_change = ((current_price - ref_price) / ref_price) * 100`. -/
def ref_change (current ref : ℚ) : ℚ :=
  (current - ref) / ref * 100

/-- One `f'{period_name} Change'` cell of the row (lines 122–127):
`changes.get(period_name)`, formatted when it `is not None`, else
`"N/A"`. -/
def periodCell (changes : List (String × Option ℚ)) (p : String × ℕ) : String × String :=
  match alookup p.1 changes with
  | some (some c) => (p.1 ++ " Change", fmtSigned c ++ "%")
  | _ => (p.1 ++ " Change", "N/A")

/-- The row dict built on lines 115–127: symbol, formatted current price,
formatted reference change, then one formatted-or-`"N/A"` cell per
lookback period. -/
def buildRow (ticker : String) (current refChange : ℚ)
    (changes : List (String × Option ℚ)) : Row :=
  [("Symbol", ticker),
   ("Current Price", "$" ++ fmtPlain current),
   ("Change vs Reference", fmtSigned refChange ++ "%")] ++
  TIME_PERIODS.map (periodCell changes)

/-- The body of the inner ticker loop of `generate_stock_report`
(lines 98–129), acting on the state `(reference_prices, new_references)`.
A failed fetch skips the ticker (`continue`, no row, state untouched).
Otherwise the reference is seeded from the current price when the key
`f"{ticker}_reference"` is absent, and the reference delta is computed —
a zero reference price raises (`Except.error`), aborting the run. -/
def processTicker (fetch : String → Option (List ℚ)) (st : RefMap × Bool)
    (ticker : String) : Except Unit ((RefMap × Bool) × Option Row) :=
  match get_stock_data ticker (fetch ticker) with
  | none => .ok (st, none)
  | some sd =>
    let current := sd.price
    let refKey := ticker ++ "_reference"
    let st' :=
      if alookup refKey st.1 = none then (st.1 ++ [(refKey, current)], true) else st
    let refPrice := (alookup refKey st'.1).getD 0
    if refPrice = 0 then .error ()
    else .ok (st', some (buildRow ticker current (ref_change current refPrice) sd.changes))

/-- The ticker loop over one category (lines 96–129): rows of successful
tickers in order, threading the reference state. -/
def processTickers (fetch : String → Option (List ℚ)) (st : RefMap × Bool) :
    List String → Except Unit ((RefMap × Bool) × List Row)
  | [] => .ok (st, [])
  | t :: ts =>
    match processTicker fetch st t with
    | .error e => .error e
    | .ok (st', none) => processTickers fetch st' ts
    | .ok (st', some row) =>
      match processTickers fetch st' ts with
      | .error e => .error e
      | .ok (st'', rows) => .ok (st'', row :: rows)

/-- The category loop (lines 95–132): one `(category, rows)` pair per
category, in configuration order. -/
def processCategories (fetch : String → Option (List ℚ)) (st : RefMap × Bool) :
    List (String × List String) → Except Unit ((RefMap × Bool) × List (String × List Row))
  | [] => .ok (st, [])
  | (cat, ts) :: rest =>
    match processTickers fetch st ts with
    | .error e => .error e
    | .ok (st', rows) =>
      match processCategories fetch st' rest with
      | .error e => .error e
      | .ok (st'', rep) => .ok (st'', (cat, rows) :: rep)

/-- `generate_stock_report` (lines 86–138) given the already-loaded
reference mapping: returns the per-category report together with the final
in-memory reference mapping and the `new_references` flag. -/
def generate_stock_report (fetch : String → Option (List ℚ)) (loaded : RefMap) :
    Except Unit (List (String × List Row) × RefMap × Bool) :=
  match processCategories fetch (loaded, false) TOP_STOCKS with
  | .error e => .error e
  | .ok ((refs, nr), rep) => .ok (rep, refs, nr)

/-- A whole run against the reference file: load, generate, and save the
updated mapping only when `new_references` is set (lines 88, 134–136).
Returns the file state after the run and the report (or the uncaught
error); on an uncaught error the save on line 136 is never reached, so the
file is untouched. -/
def run_report (fetch : String → Option (List ℚ)) (fs : FileState) :
    FileState × Except Unit (List (String × List Row)) :=
  match load_reference_prices fs with
  | .error _ => (fs, .error ())
  | .ok refs =>
    match generate_stock_report fetch refs with
    | .error _ => (fs, .error ())
    | .ok (rep, refs', nr) =>
      ((if nr then save_reference_prices refs' else fs), .ok rep)

/-- The in-memory reference mapping at the end of a successful
`generate_stock_report` run (`none` when the run raised). -/
def refsAfter (fetch : String → Option (List ℚ)) (loaded : RefMap) : Option RefMap :=
  match generate_stock_report fetch loaded with
  | .ok (_, refs, _) => some refs
  | .error _ => none

/-- The "Change vs Reference" cell of the row a ticker produces, if any. -/
def refCell (fetch : String → Option (List ℚ)) (st : RefMap × Bool)
    (ticker : String) : Option String :=
  match processTicker fetch st ticker with
  | .ok (_, some row) => alookup "Change vs Reference" row
  | _ => none

-- Core marks rational arithmetic irreducible; reopen it so concrete runs
-- of the embedded program evaluate inside proofs (`decide`/`rfl`).
attribute [local semireducible] Rat.sub Rat.add Rat.mul Rat.inv

/-! ### Association-list lookup lemmas -/

theorem alookup_append {α : Type} (k : String) (l₁ l₂ : List (String × α)) :
    alookup k (l₁ ++ l₂) = (alookup k l₁).or (alookup k l₂) := by
  induction l₁ with
  | nil => simp [alookup]
  | cons p rest ih =>
    obtain ⟨k', v⟩ := p
    by_cases hk : k' = k
    · simp [alookup, hk]
    · simp [alookup, hk, ih]

theorem alookup_append_some {α : Type} {k : String} {l₁ : List (String × α)}
    (l₂ : List (String × α)) {v : α} (h : alookup k l₁ = some v) :
    alookup k (l₁ ++ l₂) = some v := by
  rw [alookup_append, h]
  rfl

theorem alookup_append_none {α : Type} {k : String} {l₁ : List (String × α)}
    (l₂ : List (String × α)) (h : alookup k l₁ = none) :
    alookup k (l₁ ++ l₂) = alookup k l₂ := by
  rw [alookup_append, h]
  rfl

theorem alookup_eq_none {α : Type} {k : String} {l : List (String × α)}
    (h : ∀ p ∈ l, p.1 ≠ k) : alookup k l = none := by
  induction l with
  | nil => rfl
  | cons p rest ih =>
    obtain ⟨k', v⟩ := p
    have hk : k' ≠ k := h (k', v) (by simp)
    simp only [alookup, if_neg hk]
    exact ih fun q hq => h q (by simp [hq])

theorem alookup_some_mem {α : Type} {k : String} {l : List (String × α)} {v : α}
    (h : alookup k l = some v) : (k, v) ∈ l := by
  induction l with
  | nil => simp [alookup] at h
  | cons p rest ih =>
    obtain ⟨k', v'⟩ := p
    by_cases hk : k' = k
    · subst hk
      simp only [alookup, if_pos rfl] at h
      obtain rfl := Option.some.inj h
      simp
    · simp only [alookup, if_neg hk] at h
      exact List.mem_cons_of_mem _ (ih h)

theorem alookup_isSome_of_mem {α : Type} {p : String × α} {l : List (String × α)}
    (h : p ∈ l) : (alookup p.1 l).isSome := by
  induction l with
  | nil => simp at h
  | cons q rest ih =>
    obtain ⟨k', v'⟩ := q
    by_cases hk : k' = p.1
    · simp [alookup, hk]
    · rcases List.mem_cons.1 h with rfl | hmem
      · exact absurd rfl hk
      · simpa [alookup, hk] using ih hmem

/-- Appending the same suffix is left-cancellative on strings; in
particular distinct tickers produce distinct `"_reference"` keys. -/
theorem append_suffix_cancel {a b s : String} (h : a ++ s = b ++ s) : a = b := by
  have hd := congrArg String.data h
  simp only [String.data_append] at hd
  exact String.ext (List.append_cancel_right hd)

/-! ### Characterisation of `get_stock_data` -/

theorem changesFor_ok (data : List ℚ) (current : ℚ) :
    ∀ (ps : List (String × ℕ)) (chs : List (String × Option ℚ)),
      changesFor data current ps = .ok chs →
      chs = ps.map (fun p =>
        (p.1, if p.2 < data.length
              then some ((current - data.getD (data.length - p.2 - 1) 0) /
                         data.getD (data.length - p.2 - 1) 0 * 100)
              else none)) := by
  intro ps
  induction ps with
  | nil =>
    intro chs h
    simp only [changesFor] at h
    obtain rfl := Except.ok.inj h
    simp
  | cons p rest ih =>
    intro chs h
    obtain ⟨pn, days⟩ := p
    simp only [changesFor] at h
    by_cases hlt : days < data.length
    · rw [if_pos hlt] at h
      by_cases hz : data.getD (data.length - days - 1) 0 = 0
      · rw [if_pos hz] at h
        exact absurd h (by simp)
      · rw [if_neg hz] at h
        cases hrec : changesFor data current rest with
        | error e => rw [hrec] at h; exact absurd h (by simp)
        | ok tl =>
          rw [hrec] at h
          obtain rfl := Except.ok.inj h
          simp only [List.map_cons, if_pos hlt]
          exact congrArg₂ List.cons rfl (ih tl hrec)
    · rw [if_neg hlt] at h
      cases hrec : changesFor data current rest with
      | error e => rw [hrec] at h; exact absurd h (by simp)
      | ok tl =>
        rw [hrec] at h
        obtain rfl := Except.ok.inj h
        simp only [List.map_cons, if_neg hlt]
        exact congrArg₂ List.cons rfl (ih tl hrec)

theorem get_stock_data_ok {t : String} {data : List ℚ} {sd : StockData}
    (h : get_stock_data t (some data) = some sd) :
    data ≠ [] ∧ sd.symbol = t ∧ sd.price = data.getLastD 0 ∧
      sd.changes = periodChanges data (data.getLastD 0) := by
  simp only [get_stock_data] at h
  by_cases hemp : data.isEmpty
  · rw [if_pos hemp] at h; exact absurd h (by simp)
  · rw [if_neg hemp] at h
    cases hc : changesFor data (data.getLastD 0) TIME_PERIODS with
    | error e => rw [hc] at h; exact absurd h (by simp)
    | ok chs =>
      rw [hc] at h
      obtain rfl := Option.some.inj h
      refine ⟨by simpa [List.isEmpty_iff] using hemp, rfl, rfl, ?_⟩
      exact changesFor_ok data (data.getLastD 0) TIME_PERIODS chs hc

/-! ### Structural lemmas about the ticker loop -/

/-- A successful `processTicker` step only ever appends to the reference
mapping: the appended entries (at most one) carry the ticker's reference
key, were previously absent, and hold the fetched current price. -/
theorem processTicker_state {fetch : String → Option (List ℚ)} {st : RefMap × Bool}
    {t : String} {r : (RefMap × Bool) × Option Row}
    (h : processTicker fetch st t = .ok r) :
    ∃ ext : RefMap, r.1.1 = st.1 ++ ext ∧ r.1.2 = (st.2 || !ext.isEmpty) ∧
      ∀ p ∈ ext, p.1 = t ++ "_reference" ∧ alookup p.1 st.1 = none ∧
        ∃ sd, get_stock_data t (fetch t) = some sd ∧ p.2 = sd.price := by
  cases hsd : get_stock_data t (fetch t) with
  | none =>
    simp only [processTicker, hsd] at h
    obtain rfl := Except.ok.inj h
    exact ⟨[], by simp, by simp, by simp⟩
  | some sd =>
    simp only [processTicker, hsd] at h
    by_cases habs : alookup (t ++ "_reference") st.1 = none
    · rw [if_pos habs] at h
      have hlook : alookup (t ++ "_reference") (st.1 ++ [(t ++ "_reference", sd.price)])
          = some sd.price := by
        rw [alookup_append_none _ habs]; simp [alookup]
      rw [hlook] at h
      by_cases hz : sd.price = 0
      · rw [Option.getD_some, if_pos hz] at h
        exact absurd h (by simp)
      · rw [Option.getD_some, if_neg hz] at h
        obtain rfl := Except.ok.inj h
        refine ⟨[(t ++ "_reference", sd.price)], rfl, by simp, ?_⟩
        intro p hp
        rw [List.mem_singleton] at hp
        subst hp
        exact ⟨rfl, habs, sd, rfl, rfl⟩
    · rw [if_neg habs] at h
      obtain ⟨v, hv⟩ := Option.ne_none_iff_exists'.1 habs
      rw [hv] at h
      by_cases hz : v = 0
      · rw [Option.getD_some, if_pos hz] at h
        exact absurd h (by simp)
      · rw [Option.getD_some, if_neg hz] at h
        obtain rfl := Except.ok.inj h
        exact ⟨[], by simp, by simp, by simp⟩

/-- A `processTicker` step that yields a row: the fetch succeeded, the row
is built from the current price and a nonzero resolved reference price,
which is either the pre-existing stored one or the freshly seeded current
price. -/
theorem processTicker_ok_row {fetch : String → Option (List ℚ)} {st : RefMap × Bool}
    {t : String} {st' : RefMap × Bool} {row : Row}
    (h : processTicker fetch st t = .ok (st', some row)) :
    ∃ sd refP, get_stock_data t (fetch t) = some sd ∧ refP ≠ 0 ∧
      row = buildRow t sd.price (ref_change sd.price refP) sd.changes ∧
      alookup (t ++ "_reference") st'.1 = some refP ∧
      ((alookup (t ++ "_reference") st.1 = some refP ∧ st' = st) ∨
       (alookup (t ++ "_reference") st.1 = none ∧ refP = sd.price ∧
        st' = (st.1 ++ [(t ++ "_reference", sd.price)], true))) := by
  cases hsd : get_stock_data t (fetch t) with
  | none =>
    simp only [processTicker, hsd] at h
    exact absurd h (by simp)
  | some sd =>
    simp only [processTicker, hsd] at h
    by_cases habs : alookup (t ++ "_reference") st.1 = none
    · rw [if_pos habs] at h
      have hlook : alookup (t ++ "_reference") (st.1 ++ [(t ++ "_reference", sd.price)])
          = some sd.price := by
        rw [alookup_append_none _ habs]; simp [alookup]
      rw [hlook] at h
      by_cases hz : sd.price = 0
      · rw [Option.getD_some, if_pos hz] at h
        exact absurd h (by simp)
      · rw [Option.getD_some, if_neg hz] at h
        obtain ⟨h1, h2⟩ := Prod.mk.inj (Except.ok.inj h)
        obtain rfl := h1
        obtain rfl := Option.some.inj h2
        exact ⟨sd, sd.price, rfl, hz, rfl, hlook, Or.inr ⟨habs, rfl, rfl⟩⟩
    · rw [if_neg habs] at h
      obtain ⟨v, hv⟩ := Option.ne_none_iff_exists'.1 habs
      rw [hv] at h
      by_cases hz : v = 0
      · rw [Option.getD_some, if_pos hz] at h
        exact absurd h (by simp)
      · rw [Option.getD_some, if_neg hz] at h
        obtain ⟨h1, h2⟩ := Prod.mk.inj (Except.ok.inj h)
        obtain rfl := h1
        obtain rfl := Option.some.inj h2
        exact ⟨sd, v, rfl, hz, rfl, hv, Or.inl ⟨hv, rfl⟩⟩

/-- A failed fetch (exception or empty data) leaves the state untouched
and produces no row. -/
theorem processTicker_skip {fetch : String → Option (List ℚ)} {st : RefMap × Bool}
    {t : String} (h : get_stock_data t (fetch t) = none) :
    processTicker fetch st t = .ok (st, none) := by
  simp [processTicker, h]

theorem bnot_isEmpty_append {α : Type} (a b : List α) :
    !((a ++ b).isEmpty) = (!a.isEmpty || !b.isEmpty) := by
  cases a <;> simp

theorem alookup_append_none_split {α : Type} {k : String} {a b : List (String × α)}
    (h : alookup k (a ++ b) = none) : alookup k a = none ∧ alookup k b = none := by
  rw [alookup_append] at h
  cases ha : alookup k a with
  | none => rw [ha] at h; exact ⟨rfl, by simpa [Option.or] using h⟩
  | some v => rw [ha] at h; simp [Option.or] at h

/-- Unfolding one step of the ticker loop, forgetting the rows. -/
theorem processTickers_cons {fetch : String → Option (List ℚ)} {st : RefMap × Bool}
    {u : String} {ts : List String} {r : (RefMap × Bool) × List Row}
    (h : processTickers fetch st (u :: ts) = .ok r) :
    ∃ st₁ orow, processTicker fetch st u = .ok (st₁, orow) ∧
      ∃ r', processTickers fetch st₁ ts = .ok r' ∧ r.1 = r'.1 := by
  cases hpt : processTicker fetch st u with
  | error e =>
    simp only [processTickers, hpt] at h
    exact absurd h (by simp)
  | ok pr =>
    obtain ⟨st₁, orow⟩ := pr
    simp only [processTickers, hpt] at h
    cases orow with
    | none => exact ⟨st₁, none, rfl, r, h, rfl⟩
    | some row =>
      cases hrec : processTickers fetch st₁ ts with
      | error e =>
        simp only [hrec] at h
        exact absurd h (by simp)
      | ok r' =>
        obtain ⟨st₂, rows⟩ := r'
        simp only [hrec] at h
        obtain rfl := Except.ok.inj h
        exact ⟨st₁, some row, rfl, (st₂, rows), hrec, rfl⟩

/-- Unfolding one step of the category loop, forgetting the report. -/
theorem processCategories_cons {fetch : String → Option (List ℚ)} {st : RefMap × Bool}
    {c : String × List String} {cats : List (String × List String)}
    {r : (RefMap × Bool) × List (String × List Row)}
    (h : processCategories fetch st (c :: cats) = .ok r) :
    ∃ st₁ rows, processTickers fetch st c.2 = .ok (st₁, rows) ∧
      ∃ r', processCategories fetch st₁ cats = .ok r' ∧ r.1 = r'.1 := by
  obtain ⟨cat, ts⟩ := c
  cases hpt : processTickers fetch st ts with
  | error e =>
    simp only [processCategories, hpt] at h
    exact absurd h (by simp)
  | ok pr =>
    obtain ⟨st₁, rows⟩ := pr
    simp only [processCategories, hpt] at h
    cases hrec : processCategories fetch st₁ cats with
    | error e =>
      simp only [hrec] at h
      exact absurd h (by simp)
    | ok r' =>
      obtain ⟨st₂, rep⟩ := r'
      simp only [hrec] at h
      obtain rfl := Except.ok.inj h
      exact ⟨st₁, rows, rfl, (st₂, rep), hrec, rfl⟩

/-- The ticker loop only appends to the reference mapping; every appended
entry is a previously-absent reference key of one of the processed
tickers, holding that ticker's fetched current price, and the
`new_references` flag is raised exactly when something was appended. -/
theorem processTickers_state {fetch : String → Option (List ℚ)} :
    ∀ {ts : List String} {st : RefMap × Bool} {r : (RefMap × Bool) × List Row},
      processTickers fetch st ts = .ok r →
      ∃ ext : RefMap, r.1.1 = st.1 ++ ext ∧ r.1.2 = (st.2 || !ext.isEmpty) ∧
        ∀ p ∈ ext, alookup p.1 st.1 = none ∧
          ∃ t sd, t ∈ ts ∧ p.1 = t ++ "_reference" ∧
            get_stock_data t (fetch t) = some sd ∧ p.2 = sd.price := by
  intro ts
  induction ts with
  | nil =>
    intro st r h
    simp only [processTickers] at h
    obtain rfl := Except.ok.inj h
    exact ⟨[], by simp, by simp, by simp⟩
  | cons u ts ih =>
    intro st r h
    obtain ⟨st₁, orow, hpt, r', hrec, hr1⟩ := processTickers_cons h
    obtain ⟨ext₁, hA₁, hB₁, hP₁⟩ := processTicker_state hpt
    obtain ⟨ext₂, hA₂, hB₂, hP₂⟩ := ih hrec
    refine ⟨ext₁ ++ ext₂, ?_, ?_, ?_⟩
    · rw [hr1, hA₂, hA₁, List.append_assoc]
    · rw [hr1, hB₂, hB₁]
      cases ext₁ <;> simp [Bool.or_assoc]
    · intro p hp
      rcases List.mem_append.1 hp with hp₁ | hp₂
      · obtain ⟨hkey, habs, sd, hget, hval⟩ := hP₁ p hp₁
        exact ⟨habs, u, sd, List.mem_cons_self u ts, hkey, hget, hval⟩
      · obtain ⟨habs₁, t, sd, hts, hkey, hget, hval⟩ := hP₂ p hp₂
        rw [hA₁] at habs₁
        exact ⟨(alookup_append_none_split habs₁).1, t, sd,
          List.mem_cons_of_mem u hts, hkey, hget, hval⟩

/-- `processTickers_state` lifted to the category loop. -/
theorem processCategories_state {fetch : String → Option (List ℚ)} :
    ∀ {cats : List (String × List String)} {st : RefMap × Bool}
      {r : (RefMap × Bool) × List (String × List Row)},
      processCategories fetch st cats = .ok r →
      ∃ ext : RefMap, r.1.1 = st.1 ++ ext ∧ r.1.2 = (st.2 || !ext.isEmpty) ∧
        ∀ p ∈ ext, alookup p.1 st.1 = none ∧
          ∃ t sd, (∃ c ∈ cats, t ∈ c.2) ∧ p.1 = t ++ "_reference" ∧
            get_stock_data t (fetch t) = some sd ∧ p.2 = sd.price := by
  intro cats
  induction cats with
  | nil =>
    intro st r h
    simp only [processCategories] at h
    obtain rfl := Except.ok.inj h
    exact ⟨[], by simp, by simp, by simp⟩
  | cons c cats ih =>
    intro st r h
    obtain ⟨st₁, rows, hpt, r', hrec, hr1⟩ := processCategories_cons h
    obtain ⟨ext₁, hA₁, hB₁, hP₁⟩ := processTickers_state hpt
    obtain ⟨ext₂, hA₂, hB₂, hP₂⟩ := ih hrec
    refine ⟨ext₁ ++ ext₂, ?_, ?_, ?_⟩
    · rw [hr1, hA₂, hA₁, List.append_assoc]
    · rw [hr1, hB₂, hB₁]
      cases ext₁ <;> simp [Bool.or_assoc]
    · intro p hp
      rcases List.mem_append.1 hp with hp₁ | hp₂
      · obtain ⟨habs, t, sd, hts, hkey, hget, hval⟩ := hP₁ p hp₁
        exact ⟨habs, t, sd, ⟨c, List.mem_cons_self c cats, hts⟩, hkey, hget, hval⟩
      · obtain ⟨habs₁, t, sd, ⟨c', hc', htc'⟩, hkey, hget, hval⟩ := hP₂ p hp₂
        rw [hA₁] at habs₁
        exact ⟨(alookup_append_none_split habs₁).1, t, sd,
          ⟨c', List.mem_cons_of_mem c hc', htc'⟩, hkey, hget, hval⟩

/-- After a successful `processTicker` step on a ticker whose fetch
succeeds, the ticker's reference key holds its current price — both when
it was just seeded and when it was already stored with that value. -/
theorem processTicker_ok_lookup {fetch : String → Option (List ℚ)} {st : RefMap × Bool}
    {t : String} {st₁ : RefMap × Bool} {orow : Option Row} {sd : StockData}
    (hsd : get_stock_data t (fetch t) = some sd)
    (hdisj : alookup (t ++ "_reference") st.1 = none ∨
             alookup (t ++ "_reference") st.1 = some sd.price)
    (hpt : processTicker fetch st t = .ok (st₁, orow)) :
    alookup (t ++ "_reference") st₁.1 = some sd.price := by
  simp only [processTicker, hsd] at hpt
  rcases hdisj with habs | hpres
  · rw [if_pos habs] at hpt
    have hlook : alookup (t ++ "_reference") (st.1 ++ [(t ++ "_reference", sd.price)])
        = some sd.price := by
      rw [alookup_append_none _ habs]; simp [alookup]
    rw [hlook] at hpt
    by_cases hz : sd.price = 0
    · rw [Option.getD_some, if_pos hz] at hpt
      exact absurd hpt (by simp)
    · rw [Option.getD_some, if_neg hz] at hpt
      obtain ⟨h1, _⟩ := Prod.mk.inj (Except.ok.inj hpt)
      rw [← h1]
      exact hlook
  · have hcond : ¬ alookup (t ++ "_reference") st.1 = none := by rw [hpres]; simp
    rw [if_neg hcond, hpres] at hpt
    by_cases hz : sd.price = 0
    · rw [Option.getD_some, if_pos hz] at hpt
      exact absurd hpt (by simp)
    · rw [Option.getD_some, if_neg hz] at hpt
      obtain ⟨h1, _⟩ := Prod.mk.inj (Except.ok.inj hpt)
      rw [← h1]
      exact hpres

/-- Through the ticker loop, a processed ticker whose fetch succeeds ends
up stored under its reference key with its fetched current price —
provided it was either absent (gets seeded) or already stored with that
price. -/
theorem processTickers_seed {fetch : String → Option (List ℚ)} {t : String} {sd : StockData}
    (hsd : get_stock_data t (fetch t) = some sd) :
    ∀ {ts : List String} {st : RefMap × Bool} {r : (RefMap × Bool) × List Row},
      t ∈ ts →
      (alookup (t ++ "_reference") st.1 = none ∨
       alookup (t ++ "_reference") st.1 = some sd.price) →
      processTickers fetch st ts = .ok r →
      alookup (t ++ "_reference") r.1.1 = some sd.price := by
  intro ts
  induction ts with
  | nil => intro st r ht; exact absurd ht (by simp)
  | cons u ts ih =>
    intro st r ht hdisj h
    obtain ⟨st₁, orow, hpt, r', hrec, hr1⟩ := processTickers_cons h
    by_cases hut : u = t
    · subst hut
      have hst₁ := processTicker_ok_lookup hsd hdisj hpt
      obtain ⟨ext₂, hA₂, _, _⟩ := processTickers_state hrec
      rw [hr1, hA₂]
      exact alookup_append_some _ hst₁
    · obtain ⟨ext₁, hA₁, _, hP₁⟩ := processTicker_state hpt
      have hA₁' : st₁.1 = st.1 ++ ext₁ := hA₁
      have hext₁ : alookup (t ++ "_reference") ext₁ = none := by
        refine alookup_eq_none ?_
        intro p hp
        obtain ⟨hkey, _⟩ := hP₁ p hp
        rw [hkey]
        intro hcontra
        exact hut (append_suffix_cancel hcontra)
      have hpres : alookup (t ++ "_reference") st₁.1 = alookup (t ++ "_reference") st.1 := by
        rw [hA₁', alookup_append, hext₁]
        cases alookup (t ++ "_reference") st.1 <;> rfl
      have ht' : t ∈ ts := by
        rcases List.mem_cons.1 ht with rfl | h'
        · exact absurd rfl hut
        · exact h'
      have hdisj' : alookup (t ++ "_reference") st₁.1 = none ∨
          alookup (t ++ "_reference") st₁.1 = some sd.price := by
        rw [hpres]; exact hdisj
      rw [hr1]
      exact ih ht' hdisj' hrec

/-- `processTickers_seed` lifted to the category loop. -/
theorem processCategories_seed {fetch : String → Option (List ℚ)} {t : String} {sd : StockData}
    (hsd : get_stock_data t (fetch t) = some sd) :
    ∀ {cats : List (String × List String)} {st : RefMap × Bool}
      {r : (RefMap × Bool) × List (String × List Row)},
      (∃ c ∈ cats, t ∈ c.2) →
      (alookup (t ++ "_reference") st.1 = none ∨
       alookup (t ++ "_reference") st.1 = some sd.price) →
      processCategories fetch st cats = .ok r →
      alookup (t ++ "_reference") r.1.1 = some sd.price := by
  intro cats
  induction cats with
  | nil => intro st r hmem; simp at hmem
  | cons c cats ih =>
    intro st r hmem hdisj h
    obtain ⟨st₁, rows, hpt, r', hrec, hr1⟩ := processCategories_cons h
    -- Transport the disjunctive invariant through this category's tickers.
    have hdisj' : alookup (t ++ "_reference") st₁.1 = none ∨
        alookup (t ++ "_reference") st₁.1 = some sd.price := by
      obtain ⟨ext₁, hA₁, _, hP₁⟩ := processTickers_state hpt
      have hA₁' : st₁.1 = st.1 ++ ext₁ := hA₁
      rcases hdisj with habs | hpres
      · rw [hA₁', alookup_append, habs]
        cases hext : alookup (t ++ "_reference") ext₁ with
        | none => exact Or.inl rfl
        | some v =>
          obtain ⟨habs', t', sd', _, hkey, hget, hval⟩ :=
            hP₁ _ (alookup_some_mem hext)
          obtain rfl : t' = t := append_suffix_cancel hkey.symm
          obtain rfl : sd' = sd := Option.some.inj (hget.symm.trans hsd)
          exact Or.inr (congrArg some hval)
      · rw [hA₁']
        exact Or.inr (alookup_append_some _ hpres)
    by_cases htc : t ∈ c.2
    · have hst₁ : alookup (t ++ "_reference") st₁.1 = some sd.price :=
        processTickers_seed hsd htc hdisj hpt
      obtain ⟨ext₂, hA₂, _, _⟩ := processCategories_state hrec
      rw [hr1, hA₂]
      exact alookup_append_some _ hst₁
    · obtain ⟨c', hc', htc'⟩ := hmem
      rcases List.mem_cons.1 hc' with rfl | hc''
      · exact absurd htc' htc
      · rw [hr1]
        exact ih ⟨c', hc'', htc'⟩ hdisj' hrec

/-! ### Row-cell lemmas -/

theorem alookup_cons {α : Type} (k : String) (p : String × α) (rest : List (String × α)) :
    alookup k (p :: rest) = if p.1 = k then some p.2 else alookup k rest := by
  obtain ⟨k', v⟩ := p
  rfl

theorem periodCell_key (changes : List (String × Option ℚ)) (p : String × ℕ) :
    (periodCell changes p).1 = p.1 ++ " Change" := by
  unfold periodCell
  cases alookup p.1 changes with
  | none => rfl
  | some o => cases o <;> rfl

theorem buildRow_refCell (t : String) (c rc : ℚ) (chs : List (String × Option ℚ)) :
    alookup "Change vs Reference" (buildRow t c rc chs) = some (fmtSigned rc ++ "%") := by
  simp [buildRow, alookup_cons]

theorem buildRow_symbol (t : String) (c rc : ℚ) (chs : List (String × Option ℚ)) :
    alookup "Symbol" (buildRow t c rc chs) = some t := by
  simp [buildRow, alookup_cons]

theorem buildRow_periodCell (t : String) (c rc : ℚ) (chs : List (String × Option ℚ))
    (pn : String) (days : ℕ) (hmem : (pn, days) ∈ TIME_PERIODS) :
    alookup (pn ++ " Change") (buildRow t c rc chs) = some (periodCell chs (pn, days)).2 := by
  simp only [TIME_PERIODS, List.mem_cons, List.not_mem_nil, or_false, Prod.mk.injEq] at hmem
  rcases hmem with ⟨rfl, rfl⟩ | ⟨rfl, rfl⟩ | ⟨rfl, rfl⟩ | ⟨rfl, rfl⟩ | ⟨rfl, rfl⟩ <;>
    simp [buildRow, TIME_PERIODS, alookup_cons, periodCell_key]

theorem alookup_periodChanges (data : List ℚ) (cur : ℚ)
    (pn : String) (days : ℕ) (hmem : (pn, days) ∈ TIME_PERIODS) :
    alookup pn (periodChanges data cur) =
      some (if days < data.length
            then some ((cur - data.getD (data.length - days - 1) 0) /
                       data.getD (data.length - days - 1) 0 * 100)
            else none) := by
  simp only [TIME_PERIODS, List.mem_cons, List.not_mem_nil, or_false, Prod.mk.injEq] at hmem
  rcases hmem with ⟨rfl, rfl⟩ | ⟨rfl, rfl⟩ | ⟨rfl, rfl⟩ | ⟨rfl, rfl⟩ | ⟨rfl, rfl⟩ <;>
    simp [periodChanges, TIME_PERIODS, alookup_cons]

theorem periodCell_periodChanges_na (data : List ℚ) (cur : ℚ)
    (pn : String) (days : ℕ) (hmem : (pn, days) ∈ TIME_PERIODS)
    (hle : data.length ≤ days) :
    periodCell (periodChanges data cur) (pn, days) = (pn ++ " Change", "N/A") := by
  unfold periodCell
  rw [alookup_periodChanges data cur pn days hmem, if_neg (by omega)]

theorem periodCell_periodChanges_pct (data : List ℚ) (cur : ℚ)
    (pn : String) (days : ℕ) (hmem : (pn, days) ∈ TIME_PERIODS)
    (hlt : days < data.length) :
    periodCell (periodChanges data cur) (pn, days) =
      (pn ++ " Change",
       fmtSigned ((cur - data.getD (data.length - days - 1) 0) /
                  data.getD (data.length - days - 1) 0 * 100) ++ "%") := by
  unfold periodCell
  rw [alookup_periodChanges data cur pn days hmem, if_pos hlt]

/-! ### Run-level lemmas -/

/-- A successful `generate_stock_report` only appends previously-absent
reference keys of fetched watchlist tickers, each seeded with its fetched
current price; `new_references` is set exactly when something was
appended. -/
theorem generate_state {fetch : String → Option (List ℚ)} {loaded : RefMap}
    {rep : List (String × List Row)} {refs' : RefMap} {nr : Bool}
    (h : generate_stock_report fetch loaded = .ok (rep, refs', nr)) :
    ∃ ext : RefMap, refs' = loaded ++ ext ∧ nr = !ext.isEmpty ∧
      ∀ p ∈ ext, alookup p.1 loaded = none ∧
        ∃ t sd, (∃ c ∈ TOP_STOCKS, t ∈ c.2) ∧ p.1 = t ++ "_reference" ∧
          get_stock_data t (fetch t) = some sd ∧ p.2 = sd.price := by
  cases hpc : processCategories fetch (loaded, false) TOP_STOCKS with
  | error e =>
    simp only [generate_stock_report, hpc] at h
    exact absurd h (by simp)
  | ok pr =>
    obtain ⟨⟨refs0, nr0⟩, rep0⟩ := pr
    simp only [generate_stock_report, hpc] at h
    obtain ⟨h1, h2⟩ := Prod.mk.inj (Except.ok.inj h)
    obtain ⟨h3, h4⟩ := Prod.mk.inj h2
    obtain ⟨ext, hA, hB, hP⟩ := processCategories_state hpc
    have hA' : refs0 = loaded ++ ext := hA
    have hB' : nr0 = (false || !ext.isEmpty) := hB
    rw [Bool.false_or] at hB'
    exact ⟨ext, h3 ▸ hA', h4 ▸ hB', hP⟩

/-- A watchlist ticker with a successful fetch that is absent from the
loaded store ends the run stored with its fetched current price. -/
theorem generate_seed {fetch : String → Option (List ℚ)} {loaded : RefMap}
    {rep : List (String × List Row)} {refs' : RefMap} {nr : Bool}
    {t : String} {sd : StockData}
    (hgen : generate_stock_report fetch loaded = .ok (rep, refs', nr))
    (hmem : ∃ c ∈ TOP_STOCKS, t ∈ c.2)
    (habs : alookup (t ++ "_reference") loaded = none)
    (hsd : get_stock_data t (fetch t) = some sd) :
    alookup (t ++ "_reference") refs' = some sd.price := by
  cases hpc : processCategories fetch (loaded, false) TOP_STOCKS with
  | error e =>
    simp only [generate_stock_report, hpc] at hgen
    exact absurd hgen (by simp)
  | ok pr =>
    obtain ⟨⟨refs0, nr0⟩, rep0⟩ := pr
    simp only [generate_stock_report, hpc] at hgen
    obtain ⟨h1, h2⟩ := Prod.mk.inj (Except.ok.inj hgen)
    obtain ⟨h3, h4⟩ := Prod.mk.inj h2
    have := processCategories_seed hsd hmem (Or.inl habs) hpc
    exact h3 ▸ this

/-! ### The claims -/

/-- C1: the first time a ticker is observed (its key is absent from the
loaded store) its stored reference is set to that run's current price; a
key already present keeps its stored value, whatever the current price —
no run overwrites or deletes an existing reference entry. -/
theorem c1_reference_baseline_immutable
    (fetch : String → Option (List ℚ)) (loaded refs' : RefMap)
    (h : refsAfter fetch loaded = some refs') :
    (∀ k v, alookup k loaded = some v → alookup k refs' = some v) ∧
    (∀ cat ts t sd, (cat, ts) ∈ TOP_STOCKS → t ∈ ts →
      alookup (t ++ "_reference") loaded = none →
      get_stock_data t (fetch t) = some sd →
      alookup (t ++ "_reference") refs' = some sd.price) := by
  cases hgen : generate_stock_report fetch loaded with
  | error e =>
    simp only [refsAfter, hgen] at h
    exact absurd h (by simp)
  | ok res =>
    obtain ⟨rep, refs, nr⟩ := res
    simp only [refsAfter, hgen] at h
    obtain rfl := Option.some.inj h
    constructor
    · intro k v hv
      obtain ⟨ext, hA, _, _⟩ := generate_state hgen
      rw [hA]
      exact alookup_append_some _ hv
    · intro cat ts t sd hmem hts habs hsd
      exact generate_seed hgen ⟨(cat, ts), hmem, hts⟩ habs hsd

/-- C3: a ticker whose fetch raises or returns empty data is skipped: it
produces no row, the reference state is untouched, and the loop continues
with the remaining tickers exactly as if the failed one were absent. -/
theorem c3_failed_fetch_skipped
    (fetch : String → Option (List ℚ)) (st : RefMap × Bool) (t : String)
    (hf : fetch t = none ∨ fetch t = some []) :
    processTicker fetch st t = .ok (st, none) ∧
    ∀ ts : List String, processTickers fetch st (t :: ts) = processTickers fetch st ts := by
  have hsd : get_stock_data t (fetch t) = none := by
    rcases hf with h | h <;> simp [get_stock_data, h]
  refine ⟨processTicker_skip hsd, fun ts => ?_⟩
  simp only [processTickers, processTicker_skip hsd]

/-- C4 (counterexample): an existing but unreadable/unparseable reference
file is a read failure that is **not** recovered as an empty mapping — the
load raises and the whole run terminates with the error. -/
theorem c4_counterexample :
    load_reference_prices FileState.unreadable = .error () ∧
    (run_report (fun _ => none) FileState.unreadable).2 = .error () :=
  ⟨rfl, rfl⟩

/-- C4 (amended): `load_reference_prices` returns the empty mapping only
when no persisted file exists; a present parseable file is returned as-is,
and a present but unreadable file makes the load raise, uncaught. -/
theorem c4_load_missing_recovered :
    load_reference_prices FileState.missing = .ok [] ∧
    (∀ m : RefMap, load_reference_prices (FileState.present m) = .ok m) ∧
    load_reference_prices FileState.unreadable = .error () :=
  ⟨rfl, fun _ => rfl, rfl⟩

/-- C9: report generation is a pure function of the loaded reference store
and the fetch results — two runs on identical inputs return identical
results (all computed delta strings included). -/
theorem c9_deterministic_report
    (fetch : String → Option (List ℚ)) (loaded : RefMap)
    (r₁ r₂ : Except Unit (List (String × List Row) × RefMap × Bool))
    (h₁ : generate_stock_report fetch loaded = r₁)
    (h₂ : generate_stock_report fetch loaded = r₂) : r₁ = r₂ := by
  rw [← h₁, ← h₂]

/-- C8: a (non-aborting) run changes the persisted reference file exactly
when at least one new ticker was seeded — i.e. when the final in-memory
mapping holds a key the loaded mapping lacked; with no new ticker, the
file is left untouched. -/
theorem c8_save_iff_new_reference
    (fetch : String → Option (List ℚ)) (fs : FileState) (m : RefMap)
    (rep : List (String × List Row)) (refs' : RefMap) (nr : Bool)
    (hload : load_reference_prices fs = .ok m)
    (hgen : generate_stock_report fetch m = .ok (rep, refs', nr)) :
    ((run_report fetch fs).1 ≠ fs ↔
      ∃ k, alookup k m = none ∧ (alookup k refs').isSome) := by
  have hrun : (run_report fetch fs).1 = if nr then save_reference_prices refs' else fs := by
    simp only [run_report, hload, hgen]
  obtain ⟨ext, hA, hB, hP⟩ := generate_state hgen
  cases ext with
  | nil =>
    rw [List.append_nil] at hA
    subst hA
    rw [show nr = false from hB] at hrun
    rw [hrun, if_neg (by simp)]
    constructor
    · intro hne; exact absurd rfl hne
    · rintro ⟨k, hnone, hsome⟩
      rw [hnone] at hsome
      exact absurd hsome (by simp)
  | cons p ext' =>
    rw [show nr = true from hB] at hrun
    rw [hrun, if_pos rfl]
    have hlen : m.length < refs'.length := by
      rw [hA]; simp
    have hne : save_reference_prices refs' ≠ fs := by
      intro heq
      cases fs with
      | missing => exact FileState.noConfusion heq
      | unreadable => exact FileState.noConfusion heq
      | present m₀ =>
        have hm : m₀ = m := Except.ok.inj hload
        have h2 : refs' = m₀ := FileState.present.inj heq
        rw [h2, hm] at hlen
        exact lt_irrefl _ hlen
    refine iff_of_true hne ?_
    refine ⟨p.1, (hP p (by simp)).1, ?_⟩
    rw [hA, alookup_append, (hP p (by simp)).1]
    exact alookup_isSome_of_mem (by simp)

/-- C2: for every lookback window of `days` trading days, a row produced
from a history of at most `days` data points shows `"N/A"` for that
window (no percentage is computed there), and with strictly more data
points it shows a computed formatted percentage. -/
theorem c2_insufficient_history_na
    (fetch : String → Option (List ℚ)) (st : RefMap × Bool) (t : String)
    (data : List ℚ) (st' : RefMap × Bool) (row : Row) (pn : String) (days : ℕ)
    (hfetch : fetch t = some data)
    (hpt : processTicker fetch st t = .ok (st', some row))
    (hmem : (pn, days) ∈ TIME_PERIODS) :
    (data.length ≤ days → alookup (pn ++ " Change") row = some "N/A") ∧
    (days < data.length →
      ∃ pct : ℚ, alookup (pn ++ " Change") row = some (fmtSigned pct ++ "%")) := by
  obtain ⟨sd, refP, hsd, hz, hrow, hlook, hcase⟩ := processTicker_ok_row hpt
  rw [hfetch] at hsd
  obtain ⟨hne, hsym, hpr, hchs⟩ := get_stock_data_ok hsd
  subst hrow
  rw [hchs]
  constructor
  · intro hle
    rw [buildRow_periodCell _ _ _ _ _ _ hmem,
        periodCell_periodChanges_na _ _ _ _ hmem hle]
  · intro hlt
    refine ⟨(data.getLastD 0 - data.getD (data.length - days - 1) 0) /
            data.getD (data.length - days - 1) 0 * 100, ?_⟩
    rw [buildRow_periodCell _ _ _ _ _ _ hmem,
        periodCell_periodChanges_pct _ _ _ _ hmem hlt]

/-- C5: the reported "Change vs Reference" cell is the formatted value of
`(current - reference) / reference * 100`, and each computed lookback cell
is the formatted value of `(current - past) / past * 100` with that
window's past price. -/
theorem c5_delta_formulas
    (fetch : String → Option (List ℚ)) (st : RefMap × Bool) (t : String)
    (data : List ℚ) (sd : StockData) (st' : RefMap × Bool) (row : Row) (r : ℚ)
    (hfetch : fetch t = some data)
    (hsd : get_stock_data t (fetch t) = some sd)
    (hpt : processTicker fetch st t = .ok (st', some row))
    (hr : alookup (t ++ "_reference") st'.1 = some r) (hr0 : r ≠ 0) :
    alookup "Change vs Reference" row = some (fmtSigned ((sd.price - r) / r * 100) ++ "%") ∧
    (∀ pn days, (pn, days) ∈ TIME_PERIODS → days < data.length →
      data.getD (data.length - days - 1) 0 ≠ 0 →
      alookup (pn ++ " Change") row = some
        (fmtSigned ((sd.price - data.getD (data.length - days - 1) 0) /
                    data.getD (data.length - days - 1) 0 * 100) ++ "%")) := by
  obtain ⟨sd₀, refP, hsd₀, hz, hrow, hlook, hcase⟩ := processTicker_ok_row hpt
  obtain rfl : sd₀ = sd := Option.some.inj (hsd₀.symm.trans hsd)
  obtain rfl : refP = r := Option.some.inj (hlook.symm.trans hr)
  rw [hfetch] at hsd
  obtain ⟨hne, hsym, hpr, hchs⟩ := get_stock_data_ok hsd
  subst hrow
  constructor
  · rw [buildRow_refCell]
    rfl
  · intro pn days hmem hlt hpz
    rw [hchs, buildRow_periodCell _ _ _ _ _ _ hmem,
        periodCell_periodChanges_pct _ _ _ _ hmem hlt, ← hpr]

/-- C7: a ticker whose current price equals its stored reference price has
reference delta exactly zero, reported as "+0.00%". -/
theorem c7_equal_prices_zero_delta
    (fetch : String → Option (List ℚ)) (st : RefMap × Bool) (t : String)
    (sd : StockData) (st' : RefMap × Bool) (row : Row) (c : ℚ)
    (hsd : get_stock_data t (fetch t) = some sd) (hc : sd.price = c)
    (hpres : alookup (t ++ "_reference") st.1 = some c)
    (hpt : processTicker fetch st t = .ok (st', some row)) :
    ref_change c c = 0 ∧ alookup "Change vs Reference" row = some "+0.00%" := by
  have hzero : ref_change c c = 0 := by
    simp [ref_change]
  refine ⟨hzero, ?_⟩
  obtain ⟨sd₀, refP, hsd₀, hz, hrow, hlook, hcase⟩ := processTicker_ok_row hpt
  obtain rfl : sd₀ = sd := Option.some.inj (hsd₀.symm.trans hsd)
  subst hrow
  rcases hcase with ⟨hlookSt, rfl⟩ | ⟨habs, _, _⟩
  · obtain rfl : refP = c := Option.some.inj (hlookSt.symm.trans hpres)
    rw [buildRow_refCell, hc, hzero]
    decide
  · rw [habs] at hpres
    exact absurd hpres (by simp)

/-- C10: a ticker seeded on this run (reference key absent before the
step) gets its reference set to the current price before the delta is
computed, so its own row reports "+0.00%" against the reference. -/
theorem c10_seeded_row_zero_delta
    (fetch : String → Option (List ℚ)) (st : RefMap × Bool) (t : String)
    (sd : StockData) (st' : RefMap × Bool) (row : Row)
    (hsd : get_stock_data t (fetch t) = some sd)
    (habs : alookup (t ++ "_reference") st.1 = none)
    (hpt : processTicker fetch st t = .ok (st', some row)) :
    alookup (t ++ "_reference") st'.1 = some sd.price ∧
    alookup "Change vs Reference" row = some "+0.00%" := by
  obtain ⟨sd₀, refP, hsd₀, hz, hrow, hlook, hcase⟩ := processTicker_ok_row hpt
  obtain rfl : sd₀ = sd := Option.some.inj (hsd₀.symm.trans hsd)
  rcases hcase with ⟨hlookSt, _⟩ | ⟨_, rfl, _⟩
  · rw [habs] at hlookSt
    exact absurd hlookSt (by simp)
  · refine ⟨hlook, ?_⟩
    subst hrow
    rw [buildRow_refCell]
    simp only [ref_change, sub_self, zero_div, zero_mul]
    decide

/-- C6: deltas are formatted as signed two-decimal percentage strings:
reference 100 with current 105 reports "+5.00%", and with current 95
reports "-5.00%". -/
theorem c6_signed_two_decimal_formatting :
    refCell (fun t => if t = "NVDA" then some [105] else none)
        ([("NVDA_reference", (100 : ℚ))], false) "NVDA" = some "+5.00%" ∧
    refCell (fun t => if t = "NVDA" then some [95] else none)
        ([("NVDA_reference", (100 : ℚ))], false) "NVDA" = some "-5.00%" := by
  constructor <;> decide

/-! ### Concrete witnesses -/

theorem c1_witness :
    alookup "AMD_reference" [("AMD_reference", (50 : ℚ)), ("NVDA_reference", 105)] = some 50 ∧
    alookup "NVDA_reference" [("AMD_reference", (50 : ℚ)), ("NVDA_reference", 105)] = some 105 := by
  have h := c1_reference_baseline_immutable
    (fun t => if t = "NVDA" then some [105] else none)
    [("AMD_reference", (50 : ℚ))]
    [("AMD_reference", (50 : ℚ)), ("NVDA_reference", 105)]
    (by decide)
  refine ⟨h.1 "AMD_reference" 50 (by decide), ?_⟩
  exact h.2 "Semiconductor"
    ["NVDA", "TSM", "ASML", "AMD", "INTC", "AVGO", "QCOM", "TXN", "MU", "ADI"]
    "NVDA"
    ⟨"NVDA", 105, [("1d", none), ("1w", none), ("15d", none), ("30d", none), ("2m", none)]⟩
    (by decide) (by decide) (by decide) (by decide)

theorem c2_witness :
    alookup ("1w" ++ " Change")
      [("Symbol", "X"), ("Current Price", "$20.00"), ("Change vs Reference", "+100.00%"),
       ("1d Change", "+100.00%"), ("1w Change", "N/A"), ("15d Change", "N/A"),
       ("30d Change", "N/A"), ("2m Change", "N/A")] = some "N/A" := by
  have h := c2_insufficient_history_na
    (fun t => if t = "X" then some [10, 20] else none)
    ([("X_reference", (10 : ℚ))], false) "X" [10, 20]
    ([("X_reference", (10 : ℚ))], false)
    [("Symbol", "X"), ("Current Price", "$20.00"), ("Change vs Reference", "+100.00%"),
     ("1d Change", "+100.00%"), ("1w Change", "N/A"), ("15d Change", "N/A"),
     ("30d Change", "N/A"), ("2m Change", "N/A")]
    "1w" 5 rfl (by rfl) (by decide)
  exact h.1 (by decide)

theorem c3_witness :
    processTicker (fun _ => none) ([], false) "AMD" = .ok (([], false), none) ∧
    processTickers (fun _ => none) ([], false) ["AMD", "NVDA"] =
      processTickers (fun _ => none) ([], false) ["NVDA"] := by
  have h := c3_failed_fetch_skipped (fun _ => none) ([], false) "AMD" (Or.inl rfl)
  exact ⟨h.1, h.2 ["NVDA"]⟩

theorem c5_witness :
    alookup "Change vs Reference"
      [("Symbol", "X"), ("Current Price", "$110.00"), ("Change vs Reference", "+0.00%"),
       ("1d Change", "+10.00%"), ("1w Change", "N/A"), ("15d Change", "N/A"),
       ("30d Change", "N/A"), ("2m Change", "N/A")] =
      some (fmtSigned ((110 - 110) / 110 * 100) ++ "%") ∧
    alookup ("1d" ++ " Change")
      [("Symbol", "X"), ("Current Price", "$110.00"), ("Change vs Reference", "+0.00%"),
       ("1d Change", "+10.00%"), ("1w Change", "N/A"), ("15d Change", "N/A"),
       ("30d Change", "N/A"), ("2m Change", "N/A")] =
      some (fmtSigned (((110 : ℚ) - 100) / 100 * 100) ++ "%") := by
  have h := c5_delta_formulas
    (fun t => if t = "X" then some [100, 110] else none)
    ([], false) "X" [100, 110]
    ⟨"X", 110, [("1d", some (((110 : ℚ) - 100) / 100 * 100)), ("1w", none), ("15d", none),
                ("30d", none), ("2m", none)]⟩
    ([("X_reference", (110 : ℚ))], true)
    [("Symbol", "X"), ("Current Price", "$110.00"), ("Change vs Reference", "+0.00%"),
     ("1d Change", "+10.00%"), ("1w Change", "N/A"), ("15d Change", "N/A"),
     ("30d Change", "N/A"), ("2m Change", "N/A")]
    110 rfl (by decide) (by rfl) (by decide) (by decide)
  exact ⟨h.1, h.2 "1d" 1 (by decide) (by decide) (by decide)⟩

theorem c7_witness :
    ref_change 42 42 = 0 ∧
    alookup "Change vs Reference"
      [("Symbol", "T"), ("Current Price", "$42.00"), ("Change vs Reference", "+0.00%"),
       ("1d Change", "N/A"), ("1w Change", "N/A"), ("15d Change", "N/A"),
       ("30d Change", "N/A"), ("2m Change", "N/A")] = some "+0.00%" :=
  c7_equal_prices_zero_delta
    (fun t => if t = "T" then some [42] else none)
    ([("T_reference", (42 : ℚ))], false) "T"
    ⟨"T", 42, [("1d", none), ("1w", none), ("15d", none), ("30d", none), ("2m", none)]⟩
    ([("T_reference", (42 : ℚ))], false)
    [("Symbol", "T"), ("Current Price", "$42.00"), ("Change vs Reference", "+0.00%"),
     ("1d Change", "N/A"), ("1w Change", "N/A"), ("15d Change", "N/A"),
     ("30d Change", "N/A"), ("2m Change", "N/A")]
    42 (by decide) rfl (by decide) (by rfl)

theorem c8_witness :
    (run_report (fun _ => none) (FileState.present [("X", (5 : ℚ))])).1 =
      FileState.present [("X", (5 : ℚ))] := by
  have h := c8_save_iff_new_reference (fun _ => none)
    (FileState.present [("X", (5 : ℚ))]) [("X", (5 : ℚ))]
    [("Semiconductor", []), ("AI", []), ("Defense", [])] [("X", (5 : ℚ))] false
    rfl (by rfl)
  refine not_ne_iff.mp ?_
  intro hne
  obtain ⟨k, hnone, hsome⟩ := h.mp hne
  rw [hnone] at hsome
  exact absurd hsome (by simp)

theorem c9_witness :
    generate_stock_report (fun _ => none) [] =
      .ok ([("Semiconductor", []), ("AI", []), ("Defense", [])], [], false) :=
  c9_deterministic_report (fun _ => none) []
    (generate_stock_report (fun _ => none) [])
    (.ok ([("Semiconductor", []), ("AI", []), ("Defense", [])], [], false))
    rfl (by rfl)

theorem c10_witness :
    alookup "T_reference" [("T_reference", (7 : ℚ))] = some 7 ∧
    alookup "Change vs Reference"
      [("Symbol", "T"), ("Current Price", "$7.00"), ("Change vs Reference", "+0.00%"),
       ("1d Change", "N/A"), ("1w Change", "N/A"), ("15d Change", "N/A"),
       ("30d Change", "N/A"), ("2m Change", "N/A")] = some "+0.00%" :=
  c10_seeded_row_zero_delta
    (fun t => if t = "T" then some [7] else none)
    ([], false) "T"
    ⟨"T", 7, [("1d", none), ("1w", none), ("15d", none), ("30d", none), ("2m", none)]⟩
    ([("T_reference", (7 : ℚ))], true)
    [("Symbol", "T"), ("Current Price", "$7.00"), ("Change vs Reference", "+0.00%"),
     ("1d Change", "N/A"), ("1w Change", "N/A"), ("15d Change", "N/A"),
     ("30d Change", "N/A"), ("2m Change", "N/A")]
    (by decide) (by decide) (by rfl)

end StockReport
